import Mathlib

/-
Verification of bounoable/siteperf: a crawler that finds unused CSS classes.

Shallow embedding of the Go sources:
  * css.go        — `ExtractClasses`, `ExtractClassesFromFile`, `isValidClass`,
                    `unique`, and the two regular expressions, modelled as
                    executable functions over `List Char` / `String`.
  * finder.go     — `Finder`, `New`, `FindUnused`, `findUsed`, `findLinks`,
                    `extractClasses`, `filter`, `deref`, `visitedPages`.
                    The concurrent worker pool is replayed sequentially: one
                    worker drains the frontier queue page by page, which is a
                    realizable schedule of the Go program (the pool size is
                    min(4, NumCPU) and equals 1 on a single-CPU host), and the
                    aggregation order over the observation channel is the
                    arrival order.  Cancellation and the idle timeout are
                    modelled as a fuel bound on the number of pages a worker
                    may dequeue before it stops.

External collaborators (the rod browser and net/url) enter as oracles:
  * `site : URL → pageResult` models page loading plus the DOM queries,
  * `parse : String → Option URL` models url.Parse (none = parse error).

Machine integers: all counts in the program are tallies of list elements and
are therefore non-negative; they are modelled as `Nat`.  No arithmetic in the
source can overflow a 64-bit int for any realizable input size.
-/

namespace Siteperf

/-! ## css.go -/

/-- Character class `[a-zA-Z0-9_-]` of the extraction regex `\.[a-zA-Z0-9_-]+`
and of the tail of `validClassRE`. -/
def isClassChar (c : Char) : Bool :=
  ('a' ≤ c && c ≤ 'z') || ('A' ≤ c && c ≤ 'Z') || ('0' ≤ c && c ≤ '9') ||
    c = '_' || c = '-'

/-- Character class `[a-zA-Z_]`: the first character admitted by
`validClassRE = ^(?:[a-zA-Z_][a-zA-Z0-9_-]*$)`. -/
def isIdentStart (c : Char) : Bool :=
  ('a' ≤ c && c ≤ 'z') || ('A' ≤ c && c ≤ 'Z') || c = '_'

theorem length_dropWhile_le (p : Char → Bool) :
    ∀ l : List Char, (l.dropWhile p).length ≤ l.length := by
  intro l
  induction l with
  | nil => simp [List.dropWhile]
  | cons a as ih =>
    simp only [List.dropWhile]
    cases p a with
    | false => simp
    | true => simpa using Nat.le_succ_of_le ih

/-- `re.FindAllStringSubmatch(css, -1)` for `re = \.[a-zA-Z0-9_-]+`:
leftmost, non-overlapping, greedy matches.  Each match is returned already
stripped of its leading dot, mirroring `match[0][1:]` at the call site. -/
def findMatches : List Char → List (List Char)
  | [] => []
  | c :: cs =>
    if c = '.' then
      match cs.takeWhile isClassChar with
      | [] => findMatches cs
      | run => run :: findMatches (cs.dropWhile isClassChar)
    else findMatches cs
termination_by l => l.length
decreasing_by
  · simp only [List.length_cons]; omega
  · simp only [List.length_cons]
    exact Nat.lt_succ_of_le (length_dropWhile_le _ _)
  · simp only [List.length_cons]; omega

/-- `isValidClass` from css.go: `validClassRE.MatchString(name)` with the
anchored pattern `^[a-zA-Z_][a-zA-Z0-9_-]*$`. -/
def isValidClass (name : String) : Bool :=
  match name.data with
  | [] => false
  | c :: rest => isIdentStart c && rest.all isClassChar

/-- Generic `filter` from finder.go (the nil-slice special case collapses, a
nil slice and an empty slice are both the empty list). -/
def filter (s : List α) (fn : α → Bool) : List α :=
  List.filter fn s

/-- `uniqueAux seen s` is the loop of `unique` from css.go with the `seen`
map materialized as the list of elements already emitted. -/
def uniqueAux (seen : List String) : List String → List String
  | [] => []
  | e :: rest =>
    if e ∈ seen then uniqueAux seen rest
    else e :: uniqueAux (e :: seen) rest

/-- `unique` from css.go: keep the first occurrence of each element. -/
def unique (s : List String) : List String :=
  uniqueAux [] s

/-- `ExtractClasses` from css.go: regex-extract dot-tokens, strip the dot,
keep valid identifiers, deduplicate, sort (`slices.Sort`; sorting by `≤` on
strings — sorted permutations of a list under a linear order are unique, so
any correct sort yields this result). -/
def ExtractClasses (css : String) : List String :=
  let classes := (findMatches css.data).map fun m => String.mk m
  let classes := filter classes fun s => isValidClass s
  let classes := unique classes
  List.insertionSort (· ≤ ·) classes

/-- `ExtractClasses` with its Go error component: the function body ends in
`return classes, nil`, so the error is always nil (`Except.ok`). -/
def ExtractClassesE (css : String) : Except String (List String) :=
  Except.ok (ExtractClasses css)

/-- `ExtractClassesFromFile` from css.go.  The `os.ReadFile` call is an
oracle input: `Except.error e` is a failed read, `Except.ok s` a successful
read of contents `s`. -/
def ExtractClassesFromFile (contents : Except String String) :
    Except String (List String) :=
  match contents with
  | Except.error err => Except.error err
  | Except.ok css => ExtractClassesE css

/-- Bool test for "the entry has a leading dot". -/
def leadingDot (s : String) : Bool :=
  match s.data with
  | [] => false
  | c :: _ => c = '.'

/-! ### Helper lemmas for css.go -/

theorem mem_uniqueAux_not_seen {x : String} :
    ∀ (l seen : List String), x ∈ uniqueAux seen l → x ∉ seen := by
  intro l
  induction l with
  | nil => intro seen h; simp [uniqueAux] at h
  | cons e rest ih =>
    intro seen h
    by_cases he : e ∈ seen
    · simp only [uniqueAux, if_pos he] at h
      exact ih seen h
    · simp only [uniqueAux, if_neg he] at h
      rcases List.mem_cons.mp h with rfl | h
      · exact he
      · intro hx
        exact ih (e :: seen) h (List.mem_cons_of_mem _ hx)

theorem mem_uniqueAux_mem {x : String} :
    ∀ (l seen : List String), x ∈ uniqueAux seen l → x ∈ l := by
  intro l
  induction l with
  | nil => intro seen h; simp [uniqueAux] at h
  | cons e rest ih =>
    intro seen h
    by_cases he : e ∈ seen
    · simp only [uniqueAux, if_pos he] at h
      exact List.mem_cons_of_mem _ (ih seen h)
    · simp only [uniqueAux, if_neg he] at h
      rcases List.mem_cons.mp h with rfl | h
      · exact List.mem_cons_self _ _
      · exact List.mem_cons_of_mem _ (ih (e :: seen) h)

theorem uniqueAux_nodup : ∀ (l seen : List String), (uniqueAux seen l).Nodup := by
  intro l
  induction l with
  | nil => intro seen; simp [uniqueAux]
  | cons e rest ih =>
    intro seen
    by_cases he : e ∈ seen
    · simpa only [uniqueAux, if_pos he] using ih seen
    · simp only [uniqueAux, if_neg he]
      refine List.nodup_cons.mpr ⟨?_, ih (e :: seen)⟩
      intro hmem
      exact mem_uniqueAux_not_seen rest (e :: seen) hmem (List.mem_cons_self _ _)

theorem unique_nodup (s : List String) : (unique s).Nodup :=
  uniqueAux_nodup s []

theorem mem_unique_mem {x : String} {s : List String} (h : x ∈ unique s) : x ∈ s :=
  mem_uniqueAux_mem s [] h

theorem isValidClass_no_leadingDot {s : String} (h : isValidClass s = true) :
    leadingDot s = false := by
  unfold isValidClass at h
  unfold leadingDot
  cases hd : s.data with
  | nil => rfl
  | cons c rest =>
    rw [hd] at h
    have hc : isIdentStart c = true := by
      rw [Bool.and_eq_true] at h
      exact h.1
    by_contra hdot
    have : c = '.' := by
      simpa using hdot
    rw [this] at hc
    simp [isIdentStart] at hc

/-! ## Claims C3 and C10 -/

/-- C3: For every CSS input string, `ExtractClasses` returns (a) a sorted
list, (b) with no duplicate entries, (c) where no entry has a leading dot,
and (d) every entry matches `[A-Za-z_][A-Za-z0-9_-]*` (= `isValidClass`). -/
theorem extractClasses_sorted_nodup_valid (css : String) :
    List.Sorted (· ≤ ·) (ExtractClasses css) ∧
    (ExtractClasses css).Nodup ∧
    ((ExtractClasses css).all fun s => isValidClass s && !(leadingDot s)) = true := by
  unfold ExtractClasses
  refine ⟨List.sorted_insertionSort _ _, ?_, ?_⟩
  · exact ((List.perm_insertionSort _ _).nodup_iff).mpr (unique_nodup _)
  · rw [List.all_eq_true]
    intro s hs
    have hs2 : s ∈ unique (filter ((findMatches css.data).map fun m => String.mk m)
        fun s => isValidClass s) := (List.perm_insertionSort _ _).mem_iff.mp hs
    have hs3 := mem_unique_mem hs2
    have hvalid : isValidClass s = true := by
      unfold filter at hs3
      exact (List.mem_filter.mp hs3).2
    rw [hvalid, isValidClass_no_leadingDot hvalid]
    rfl

/-- C10: `ExtractClasses` never fails — it returns a nil error (`Except.ok`)
for every input — so the only error `ExtractClassesFromFile` can return is
the file-read error. -/
theorem extractClasses_never_fails :
    (∀ css : String, ∃ r, ExtractClassesE css = Except.ok r) ∧
    (∀ contents : Except String String,
      (∃ e, ExtractClassesFromFile contents = Except.error e) ↔
        ∃ e, contents = Except.error e) := by
  constructor
  · intro css
    exact ⟨ExtractClasses css, rfl⟩
  · intro contents
    constructor
    · intro ⟨e, he⟩
      cases contents with
      | error e2 => exact ⟨e2, rfl⟩
      | ok css => simp [ExtractClassesFromFile, ExtractClassesE] at he
    · intro ⟨e, he⟩
      subst he
      exact ⟨e, rfl⟩

/-- Witness for C10 at concrete inputs: the empty stylesheet extracts with a
nil error, and a failed file read is the one error source. -/
theorem extractClasses_never_fails_witness :
    (∃ r, ExtractClassesE "" = Except.ok r) ∧
    (∃ e, ExtractClassesFromFile (Except.error "no such file") = Except.error e) :=
  ⟨extractClasses_never_fails.1 "",
    (extractClasses_never_fails.2 (Except.error "no such file")).mpr
      ⟨"no such file", rfl⟩⟩

/-! ## finder.go: the usage table and the unused-class resolver -/

/-- `usedClass` from finder.go.  `class` is a Lean keyword, so the field is
named `cls`.  The Go `int` count is a tally of DOM elements (produced by
`found[class]++` and summed by the aggregator), hence non-negative, and is
modelled as `Nat`. -/
structure usedClass where
  cls : String
  count : Nat
deriving DecidableEq, Repr

/-- `deref` from finder.go: dereference a possibly-nil pointer, yielding the
zero value (`default`; for `String` the empty string) when the pointer is
nil. -/
def deref [Inhabited V] (v : Option V) : V :=
  match v with
  | none => default
  | some x => x

/-- The resolution step of `Finder.FindUnused`:
`filter(classes, fun s => !slices.ContainsFunc(used, fun uc => uc.class == s && uc.count > 0))`. -/
def findUnusedResolve (classes : List String) (used : List usedClass) : List String :=
  filter classes fun s => !(used.any fun uc => uc.cls == s && uc.count > 0)

/-- Go map lookup on a usage table rendered as an association list: the
count stored under key `c`, if the key is present. -/
def lookupCount (tbl : List usedClass) (c : String) : Option Nat :=
  match tbl with
  | [] => none
  | uc :: rest => if uc.cls = c then some uc.count else lookupCount rest c

/-- Go map lookup with the zero value for an absent key (`tmp[k].count`). -/
def countOf (tbl : List usedClass) (c : String) : Nat :=
  (lookupCount tbl c).getD 0

/-! ### Helper lemmas for the resolver -/

theorem any_eq_false_of_not_mem_keys {c : String} :
    ∀ {U : List usedClass}, c ∉ U.map (fun uc => uc.cls) →
      (U.any fun uc => uc.cls == c && decide (uc.count > 0)) = false := by
  intro U
  induction U with
  | nil => intro _; rfl
  | cons uc rest ih =>
    intro h
    simp only [List.map_cons, List.mem_cons] at h
    push_neg at h
    obtain ⟨h1, h2⟩ := h
    simp only [List.any_cons, Bool.or_eq_false_iff]
    refine ⟨?_, ih h2⟩
    cases hbe : (uc.cls == c) with
    | false => rfl
    | true => exact absurd (eq_of_beq hbe).symm h1

theorem resolve_pred_eq (c : String) :
    ∀ (U : List usedClass), (U.map fun uc => uc.cls).Nodup →
      (!(U.any fun uc => uc.cls == c && decide (uc.count > 0))) =
        (match lookupCount U c with
          | none => true
          | some n => n == 0) := by
  intro U
  induction U with
  | nil => intro _; rfl
  | cons uc rest ih =>
    intro hnd
    rw [List.map_cons, List.nodup_cons] at hnd
    obtain ⟨hkey, hrest⟩ := hnd
    by_cases hc : uc.cls = c
    · subst hc
      have hany : (rest.any fun uc2 => uc2.cls == uc.cls && decide (uc2.count > 0)) = false :=
        any_eq_false_of_not_mem_keys hkey
      simp only [lookupCount, if_pos rfl, List.any_cons, hany, Bool.or_false,
        beq_self_eq_true, Bool.true_and]
      cases uc.count <;> simp
    · have hbe : (uc.cls == c) = false := by
        cases hb : (uc.cls == c) with
        | false => rfl
        | true => exact absurd (eq_of_beq hb) hc
      simp only [lookupCount, if_neg hc, List.any_cons, hbe, Bool.false_and, Bool.false_or]
      exact ih hrest

/-! ## Claim C1 -/

/-- C1: For every reference class list `R` and every aggregated usage table
`U` (a map, so its keys are distinct), the resolution step of `FindUnused`
returns exactly the classes `c ∈ R` that are absent from `U` or have count 0
in `U` — stated as a `filter` over `R`, which preserves the relative order
of `R`. -/
theorem findUnused_resolution (R : List String) (U : List usedClass)
    (h : (U.map fun uc => uc.cls).Nodup) :
    findUnusedResolve R U =
      R.filter fun c =>
        match lookupCount U c with
        | none => true
        | some n => n == 0 := by
  unfold findUnusedResolve filter
  apply List.filter_congr
  intro c _
  exact resolve_pred_eq c U h

/-- Witness for C1: a concrete table with distinct keys; the class with a
positive count is dropped, the zero-count and the absent classes are kept in
the order of the reference list. -/
theorem findUnused_resolution_witness :
    (([⟨"btn", 2⟩, ⟨"ghost", 0⟩] : List usedClass).map fun uc => uc.cls).Nodup ∧
    findUnusedResolve ["btn", "ghost", "unused-one"] [⟨"btn", 2⟩, ⟨"ghost", 0⟩] =
      ["ghost", "unused-one"] := by
  refine ⟨by decide, ?_⟩
  rw [findUnused_resolution _ _ (by decide)]
  decide

/-! ## finder.go: the aggregation loop of findUsed -/

/-- One step of the aggregation loop of `findUsed`:
`tmp[class.class] = usedClass{class.class, tmp[class.class].count + class.count}`,
with the Go map rendered as an association list keyed in first-arrival
order (an absent key holds the zero value, count 0). -/
def bumpBy (tbl : List usedClass) (c : String) (n : Nat) : List usedClass :=
  match tbl with
  | [] => [⟨c, n⟩]
  | uc :: rest =>
    if uc.cls = c then ⟨uc.cls, uc.count + n⟩ :: rest
    else uc :: bumpBy rest c n

/-- The aggregator of `findUsed`: fold the observation stream received on
`classChan`, in arrival order, into the usage table `tmp`. -/
def aggregateObs (obs : List usedClass) : List usedClass :=
  obs.foldl (fun tbl uc => bumpBy tbl uc.cls uc.count) []

/-- The sum of the per-page counts reported for class `c` across an
observation stream. -/
def sumCounts (obs : List usedClass) (c : String) : Nat :=
  ((obs.filter fun uc => uc.cls == c).map fun uc => uc.count).sum

/-! ### Helper lemmas for the aggregator -/

theorem lookupCount_bumpBy_self (c : String) (n : Nat) :
    ∀ tbl, lookupCount (bumpBy tbl c n) c = some (countOf tbl c + n) := by
  intro tbl
  induction tbl with
  | nil => simp [bumpBy, lookupCount, countOf]
  | cons uc rest ih =>
    by_cases hc : uc.cls = c
    · simp [bumpBy, if_pos hc, lookupCount, countOf]
    · simp only [bumpBy, if_neg hc, lookupCount, countOf]
      exact ih

theorem lookupCount_bumpBy_other {c x : String} (hx : x ≠ c) (n : Nat) :
    ∀ tbl, lookupCount (bumpBy tbl c n) x = lookupCount tbl x := by
  intro tbl
  induction tbl with
  | nil =>
    simp only [bumpBy, lookupCount]
    rw [if_neg (fun hcx => hx hcx.symm)]
  | cons uc rest ih =>
    by_cases hc : uc.cls = c
    · have hucx : ¬ uc.cls = x := fun he => hx (he.symm.trans hc)
      simp only [bumpBy, if_pos hc, lookupCount]
      rw [if_neg hucx, if_neg hucx]
    · simp only [bumpBy, if_neg hc, lookupCount]
      by_cases hux : uc.cls = x
      · rw [if_pos hux, if_pos hux]
      · rw [if_neg hux, if_neg hux]
        exact ih

theorem sumCounts_eq_zero_of_any_false {c : String} {obs : List usedClass}
    (h : (obs.any fun uc => uc.cls == c) = false) : sumCounts obs c = 0 := by
  unfold sumCounts
  have : obs.filter (fun uc => uc.cls == c) = [] := by
    rw [List.filter_eq_nil_iff]
    intro uc hm
    rw [List.any_eq_false] at h
    exact fun hb => (h uc hm) hb
  rw [this]
  rfl

theorem lookupCount_foldl (c : String) :
    ∀ (obs tbl : List usedClass),
      lookupCount (obs.foldl (fun t uc => bumpBy t uc.cls uc.count) tbl) c =
        if (obs.any fun uc => uc.cls == c) then some (countOf tbl c + sumCounts obs c)
        else lookupCount tbl c := by
  intro obs
  induction obs with
  | nil =>
    intro tbl
    simp [sumCounts]
  | cons uc rest ih =>
    intro tbl
    rw [List.foldl_cons, ih (bumpBy tbl uc.cls uc.count)]
    by_cases hc : uc.cls = c
    · subst hc
      have hcnt : countOf (bumpBy tbl uc.cls uc.count) uc.cls =
          countOf tbl uc.cls + uc.count := by
        simp [countOf, lookupCount_bumpBy_self]
      have hsum : sumCounts (uc :: rest) uc.cls = uc.count + sumCounts rest uc.cls := by
        simp [sumCounts, List.filter_cons]
      have hany : ((uc :: rest).any fun uc2 => uc2.cls == uc.cls) = true := by
        simp [List.any_cons]
      by_cases hr : (rest.any fun uc2 => uc2.cls == uc.cls) = true
      · rw [if_pos hr, hcnt, if_pos hany, hsum]
        congr 1
        omega
      · rw [if_neg hr, lookupCount_bumpBy_self, if_pos hany, hsum,
          sumCounts_eq_zero_of_any_false (Bool.eq_false_iff.mpr hr)]
        congr 1
    · have hbe : (uc.cls == c) = false := by
        cases hb : (uc.cls == c) with
        | false => rfl
        | true => exact absurd (eq_of_beq hb) hc
      have hanyc : ((uc :: rest).any fun uc2 => uc2.cls == c) =
          (rest.any fun uc2 => uc2.cls == c) := by
        simp [List.any_cons, hbe]
      have hsum : sumCounts (uc :: rest) c = sumCounts rest c := by
        simp [sumCounts, List.filter_cons, hbe]
      have hcnt : countOf (bumpBy tbl uc.cls uc.count) c = countOf tbl c := by
        simp [countOf, lookupCount_bumpBy_other (fun he : c = uc.cls => hc he.symm)]
      have hlk : lookupCount (bumpBy tbl uc.cls uc.count) c = lookupCount tbl c :=
        lookupCount_bumpBy_other (fun he : c = uc.cls => hc he.symm) uc.count tbl
      rw [hanyc, hsum, hcnt, hlk]

theorem perm_any {α : Type} {l1 l2 : List α} (h : List.Perm l1 l2) (p : α → Bool) :
    l1.any p = l2.any p := by
  cases hb : l2.any p with
  | false =>
    rw [List.any_eq_false] at hb ⊢
    intro x hx
    exact hb x (h.mem_iff.mp hx)
  | true =>
    rw [List.any_eq_true] at hb ⊢
    obtain ⟨x, hx, hpx⟩ := hb
    exact ⟨x, h.mem_iff.mpr hx, hpx⟩

theorem sumCounts_perm {obs obs2 : List usedClass} (h : List.Perm obs obs2)
    (c : String) : sumCounts obs c = sumCounts obs2 c := by
  unfold sumCounts
  exact List.Perm.sum_eq ((h.filter _).map _)

/-! ## Claim C4 -/

/-- C4: the aggregator's final count for each class equals the sum of that
class's per-page counts across the observation stream, and the final usage
table — as a map, i.e. under lookup — is identical for every injection order
(permutation) of the observations. -/
theorem aggregate_sum_and_order_independent (obs obs2 : List usedClass) (c : String)
    (h : List.Perm obs obs2) :
    countOf (aggregateObs obs) c = sumCounts obs c ∧
    lookupCount (aggregateObs obs) c = lookupCount (aggregateObs obs2) c := by
  have key : ∀ o : List usedClass,
      lookupCount (aggregateObs o) c =
        if (o.any fun uc => uc.cls == c) then some (sumCounts o c) else none := by
    intro o
    have h0 := lookupCount_foldl c o []
    have hz : countOf ([] : List usedClass) c = 0 := rfl
    have hn : lookupCount ([] : List usedClass) c = none := rfl
    rw [hz, hn, Nat.zero_add] at h0
    exact h0
  constructor
  · rw [countOf, key obs]
    cases ha : (obs.any fun uc => uc.cls == c) with
    | true => simp
    | false =>
      rw [if_neg Bool.false_ne_true]
      exact (sumCounts_eq_zero_of_any_false ha).symm
  · rw [key obs, key obs2, perm_any h _, sumCounts_perm h c]

/-- Witness for C4: a concrete observation stream; the final count for
`btn` is the sum 1 + 2 of its per-page counts, and swapping the first two
observations leaves the table lookup unchanged. -/
theorem aggregate_sum_and_order_independent_witness :
    countOf (aggregateObs [⟨"x", 5⟩, ⟨"btn", 1⟩, ⟨"btn", 2⟩]) "btn" = 3 ∧
    lookupCount (aggregateObs [⟨"x", 5⟩, ⟨"btn", 1⟩, ⟨"btn", 2⟩]) "btn" =
      lookupCount (aggregateObs [⟨"btn", 1⟩, ⟨"x", 5⟩, ⟨"btn", 2⟩]) "btn" := by
  have h := aggregate_sum_and_order_independent
    [⟨"x", 5⟩, ⟨"btn", 1⟩, ⟨"btn", 2⟩] [⟨"btn", 1⟩, ⟨"x", 5⟩, ⟨"btn", 2⟩] "btn"
    (List.Perm.swap _ _ _)
  refine ⟨?_, h.2⟩
  rw [h.1]
  decide

/-! ## finder.go: DOM elements and per-page class extraction -/

/-- The result of `el.Attribute(name)` on a rod element: the call can fail
(`err`), return a nil pointer (`ok none`, attribute absent), or return a
pointer to the attribute value (`ok (some v)`). -/
inductive attrResult where
  | err : attrResult
  | ok : Option String → attrResult
deriving DecidableEq, Repr

/-- An element returned by `page.Elements("[class]")`, reduced to the one
attribute the code reads. -/
structure element where
  classAttr : attrResult
deriving DecidableEq, Repr

/-- An element returned by `page.Elements("a[href]")`, reduced to the one
attribute the code reads. -/
structure linkElement where
  hrefAttr : attrResult
deriving DecidableEq, Repr

/-- `strings.Split(s, " ")` at the character level: split at every single
space character, keeping empty fields (so `Split("", " ") = [""]`). -/
def splitSpaces : List Char → List (List Char)
  | [] => [[]]
  | c :: cs =>
    if c = ' ' then [] :: splitSpaces cs
    else
      match splitSpaces cs with
      | t :: ts => (c :: t) :: ts
      | [] => [[c]]

/-- `strings.TrimSpace(s) == ""`: every character of `s` is whitespace.
(`Char.isWhitespace` covers space, tab, CR and LF; Go's `unicode.IsSpace`
additionally covers rare blank code points which no claim exercises.) -/
def isBlank (s : String) : Bool :=
  s.data.all Char.isWhitespace

/-- The token list the worker derives from one `class` attribute value:
`classList := strings.Split(rawClass, " ")` followed by
`filter(classList, fun s => strings.TrimSpace(s) != "")`. -/
def classTokens (v : String) : List String :=
  filter ((splitSpaces v.data).map fun t => String.mk t) fun s => !(isBlank s)

/-- `Finder.extractClasses` over the elements matching `[class]`: an element
whose attribute read fails is skipped (logged), the remaining attribute
values are dereferenced (`deref`, nil becomes the empty string) and
tokenized, and `found[class]++` tallies each token.  The Go `found` map is
rendered as an association list keyed in first-arrival order; the returned
`[]usedClass` is exactly its entries. -/
def extractClassesPage (elements : List element) : List usedClass :=
  elements.foldl
    (fun found el =>
      match el.classAttr with
      | attrResult.err => found
      | attrResult.ok rawClass =>
        (classTokens (deref rawClass)).foldl (fun f c => bumpBy f c 1) found)
    []

/-- The tokens contributed by one element: none when the attribute read
fails, otherwise the space-split non-blank tokens of the dereferenced
value. -/
def elementTokens (el : element) : List String :=
  match el.classAttr with
  | attrResult.err => []
  | attrResult.ok rawClass => classTokens (deref rawClass)

/-- Modelled from the spec wording of C5, not from the source (the source
splits on the space character only): tokenize on WHITESPACE, i.e. the
tokens are the maximal whitespace-free runs, empty tokens discarded.
`wsTokensAux cur l` accumulates the current run in `cur`, reversed. -/
def wsTokensAux (cur : List Char) : List Char → List (List Char)
  | [] => if cur = [] then [] else [cur.reverse]
  | c :: cs =>
    if Char.isWhitespace c then
      if cur = [] then wsTokensAux [] cs
      else cur.reverse :: wsTokensAux [] cs
    else wsTokensAux (c :: cur) cs

/-- Modelled from the spec wording of C5: the whitespace-separated tokens
of a class attribute value. -/
def whitespaceTokens (v : String) : List String :=
  (wsTokensAux [] v.data).map fun t => String.mk t

/-! ### Helper lemmas for per-page extraction -/

theorem countOf_foldl_bump1 (x : String) :
    ∀ (tokens : List String) (found : List usedClass),
      countOf (tokens.foldl (fun f c => bumpBy f c 1) found) x =
        countOf found x + tokens.count x := by
  intro tokens
  induction tokens with
  | nil => intro found; simp
  | cons t rest ih =>
    intro found
    rw [List.foldl_cons, ih (bumpBy found t 1)]
    by_cases ht : t = x
    · subst ht
      have hb : countOf (bumpBy found t 1) t = countOf found t + 1 := by
        simp [countOf, lookupCount_bumpBy_self]
      rw [hb, List.count_cons_self]
      omega
    · have hb : countOf (bumpBy found t 1) x = countOf found x := by
        simp [countOf, lookupCount_bumpBy_other (fun he : x = t => ht he.symm)]
      rw [hb, List.count_cons_of_ne (fun he : x = t => ht he.symm)]

theorem countOf_extract_aux (x : String) :
    ∀ (els : List element) (found : List usedClass),
      countOf
        (els.foldl
          (fun found el =>
            match el.classAttr with
            | attrResult.err => found
            | attrResult.ok rawClass =>
              (classTokens (deref rawClass)).foldl (fun f c => bumpBy f c 1) found)
          found) x =
        countOf found x + ((els.map elementTokens).flatten).count x := by
  intro els
  induction els with
  | nil => intro found; simp
  | cons el rest ih =>
    intro found
    cases hel : el.classAttr with
    | err =>
      simp only [List.foldl_cons, hel]
      rw [ih]
      have he : elementTokens el = [] := by simp [elementTokens, hel]
      rw [List.map_cons, he, List.flatten_cons]
      simp
    | ok rawClass =>
      simp only [List.foldl_cons, hel]
      rw [ih, countOf_foldl_bump1]
      have he : elementTokens el = classTokens (deref rawClass) := by
        simp [elementTokens, hel]
      rw [List.map_cons, he, List.flatten_cons, List.count_append]
      omega

/-! ## Claims C5 and C9 -/

/-- C5 counterexample: the source tokenizes on the space character only, not
on whitespace.  For the class attribute value "a\tb" (a tab between two
letters), the whitespace-separated tokens are `a` and `b`, but the crawler
records zero occurrences of `a` and one occurrence of the literal string
"a\tb" — refuting the claimed per-token counting at this input. -/
theorem extract_not_whitespace_tokenized :
    whitespaceTokens "a\tb" = ["a", "b"] ∧
    countOf (extractClassesPage [⟨attrResult.ok (some "a\tb")⟩]) "a" = 0 ∧
    countOf (extractClassesPage [⟨attrResult.ok (some "a\tb")⟩]) "a\tb" = 1 ∧
    ¬ (countOf (extractClassesPage [⟨attrResult.ok (some "a\tb")⟩]) "a" =
        (whitespaceTokens "a\tb").count "a") := by
  refine ⟨by decide, by decide, by decide, by decide⟩

/-- C5 amended: class usage is extracted from all elements carrying a class
attribute (skipping elements whose attribute read fails) by splitting the
attribute value on the SPACE character and discarding tokens that are empty
or whitespace-only; every remaining token is counted verbatim as one
occurrence of that class name. -/
theorem extractClasses_counts_space_tokens (els : List element) (x : String) :
    countOf (extractClassesPage els) x = ((els.map elementTokens).flatten).count x := by
  unfold extractClassesPage
  rw [countOf_extract_aux x els []]
  exact Nat.zero_add _

/-- C9: attribute lookup is total at the public interface: `deref` maps a
nil pointer to the zero value (for strings, ""), and a present pointer to
its value, so a missing attribute is processed as the empty string and
never faults; an element with a missing class attribute contributes zero
class observations, since the empty string yields no tokens. -/
theorem deref_total_missing_attribute :
    deref (none : Option String) = "" ∧
    (∀ v : String, deref (some v) = v) ∧
    (∀ els : List element,
      extractClassesPage ({ classAttr := attrResult.ok none } :: els) =
        extractClassesPage els) ∧
    classTokens "" = [] :=
  ⟨rfl, fun _ => rfl, fun _ => rfl, rfl⟩

/-! ## finder.go: URLs, the visited set, and link discovery -/

/-- The projection of `net/url.URL` the crawler reads: `Host` and `Path`. -/
structure URL where
  host : String
  path : String
deriving DecidableEq, Repr

/-- The `Finder` receiver fields read by the crawl (the logger carries no
program state). -/
structure Finder where
  rootURL : URL
  pageLimit : Nat
deriving DecidableEq, Repr

/-- `New` from finder.go: parse the root URL (through the `url.Parse`
oracle) and build a `Finder`; an unparsable root URL is the error return. -/
def New (parse : String → Option URL) (rootURL : String) (pageLimit : Nat) :
    Except String Finder :=
  match parse rootURL with
  | none => Except.error "parse root URL"
  | some u => Except.ok { rootURL := u, pageLimit := pageLimit }

/-- `visitedPages` from finder.go: the mutex-guarded set of already-admitted
paths, rendered as the list of its map keys (each key appears once). -/
structure visitedPages where
  paths : List String
deriving DecidableEq, Repr

/-- `visitedPages.has`: key membership. -/
def visitedPages.has (vp : visitedPages) (path : String) : Bool :=
  vp.paths.contains path

/-- `visitedPages.add`: the map write `vp.paths[path] = true`, idempotent on
the key set. -/
def visitedPages.add (vp : visitedPages) (path : String) : visitedPages :=
  if vp.paths.contains path then vp else ⟨vp.paths ++ [path]⟩

/-- `visitedPages.count`: `len(vp.paths)`, the number of keys. -/
def visitedPages.count (vp : visitedPages) : Nat :=
  vp.paths.length

/-- `Finder.findLinks` over the elements matching `a[href]`, threading the
visited set: skip an element whose attribute read fails (logged) or whose
href fails to parse (logged); skip a cross-host target; skip a target whose
path is already visited or, when a positive page limit is configured and
the visited count has reached the limit; otherwise mark the path visited
and append the URL to the result. -/
def findLinks (f : Finder) (parse : String → Option URL) :
    List linkElement → visitedPages → List URL × visitedPages
  | [], visited => ([], visited)
  | link :: rest, visited =>
    match link.hrefAttr with
    | attrResult.err => findLinks f parse rest visited
    | attrResult.ok href =>
      match parse (deref href) with
      | none => findLinks f parse rest visited
      | some toURL =>
        if toURL.host ≠ f.rootURL.host then findLinks f parse rest visited
        else if visited.has toURL.path ∨ (f.pageLimit > 0 ∧ visited.count ≥ f.pageLimit) then
          findLinks f parse rest visited
        else
          let out2 := findLinks f parse rest (visited.add toURL.path)
          (toURL :: out2.1, out2.2)

/-- Modelled from the spec wording of C6 (§4.4 and the glossary), for
comparison with `findLinks`: admit exactly the anchor targets that are
same-host AND unvisited AND within the page budget (no budget when the
limit is 0, otherwise the visited count must still be below the limit);
an admitted target is marked visited at once. -/
def findLinksSpec (f : Finder) (parse : String → Option URL) :
    List linkElement → visitedPages → List URL × visitedPages
  | [], visited => ([], visited)
  | link :: rest, visited =>
    match link.hrefAttr with
    | attrResult.err => findLinksSpec f parse rest visited
    | attrResult.ok href =>
      match parse (deref href) with
      | none => findLinksSpec f parse rest visited
      | some toURL =>
        if toURL.host = f.rootURL.host ∧ ¬ (visited.has toURL.path = true) ∧
            (f.pageLimit = 0 ∨ visited.count < f.pageLimit) then
          let out2 := findLinksSpec f parse rest (visited.add toURL.path)
          (toURL :: out2.1, out2.2)
        else findLinksSpec f parse rest visited

/-! ## Claim C6 -/

/-- C6: link discovery admits exactly the same-host, unvisited,
within-budget anchor targets — `findLinks` coincides with the
specification-worded filter `findLinksSpec` — and every discovered (hence
enqueued) link is same-host: a cross-host link is never followed. -/
theorem findLinks_same_host_exactly (f : Finder) (parse : String → Option URL)
    (links : List linkElement) (visited : visitedPages) :
    findLinks f parse links visited = findLinksSpec f parse links visited ∧
    ((findLinks f parse links visited).1.all fun u => u.host == f.rootURL.host) = true := by
  constructor
  · induction links generalizing visited with
    | nil => rfl
    | cons link rest ih =>
      cases hl : link.hrefAttr with
      | err =>
        simp only [findLinks, findLinksSpec, hl]
        exact ih visited
      | ok href =>
        cases hp : parse (deref href) with
        | none =>
          simp only [findLinks, findLinksSpec, hl, hp]
          exact ih visited
        | some u =>
          simp only [findLinks, findLinksSpec, hl, hp]
          by_cases hh : u.host = f.rootURL.host
          · rw [if_neg (not_not_intro hh)]
            by_cases hcond : (visited.has u.path = true) ∨
                (f.pageLimit > 0 ∧ visited.count ≥ f.pageLimit)
            · rw [if_pos hcond, if_neg ?hspec]
              case hspec =>
                rintro ⟨-, hnv, hbudget⟩
                rcases hcond with hv | ⟨hpos, hge⟩
                · exact hnv hv
                · rcases hbudget with hz | hlt
                  · omega
                  · omega
              exact ih visited
            · have hcond2 := hcond
              push_neg at hcond2
              obtain ⟨hnv, hbudget⟩ := hcond2
              rw [if_neg hcond, if_pos ⟨hh, hnv, by omega⟩]
              rw [ih (visited.add u.path)]
          · rw [if_pos hh, if_neg (fun hs => hh hs.1)]
            exact ih visited
  · induction links generalizing visited with
    | nil => rfl
    | cons link rest ih =>
      cases hl : link.hrefAttr with
      | err =>
        simp only [findLinks, hl]
        exact ih visited
      | ok href =>
        cases hp : parse (deref href) with
        | none =>
          simp only [findLinks, hl, hp]
          exact ih visited
        | some u =>
          simp only [findLinks, hl, hp]
          by_cases hh : u.host = f.rootURL.host
          · rw [if_neg (not_not_intro hh)]
            by_cases hcond : (visited.has u.path = true) ∨
                (f.pageLimit > 0 ∧ visited.count ≥ f.pageLimit)
            · rw [if_pos hcond]
              exact ih visited
            · rw [if_neg hcond]
              simp only [List.all_cons]
              rw [ih (visited.add u.path)]
              simp [hh]
          · rw [if_pos hh]
            exact ih visited

/-! ## finder.go: the crawl loop of findUsed -/

/-- The DOM content of one rendered page: the elements matching `[class]`
and the elements matching `a[href]`. -/
structure pageData where
  classElements : List element
  linkElements : List linkElement

/-- The outcome of the rendering collaborator on one page, in the order the
worker checks it: `WaitLoad` error, `WaitStable` error, failure of the
`[class]` element query, failure of the `a[href]` element query (in which
case the page data whose class extraction already succeeded is discarded by
`continue`), or full success. -/
inductive pageResult where
  | loadErr : pageResult
  | stableErr : pageResult
  | classQueryErr : pageResult
  | linkQueryErr : pageData → pageResult
  | ok : pageData → pageResult

/-- The run-time state of the sequential replay of `findUsed`: the pending
frontier queue, the visited set, the observation stream published to
`classChan` so far (in publication order), and the paths of the pages the
worker has navigated to (`browser.MustPage`). -/
structure crawlState where
  queue : List URL
  visited : visitedPages
  obs : List usedClass
  processedPaths : List String

/-- One worker iteration on a dequeued URL: any per-page failure is logged
and skipped (`continue`), contributing nothing; on success the page's class
observations are published and the admitted links are enqueued. -/
def processPage (f : Finder) (site : URL → pageResult) (parse : String → Option URL)
    (u : URL) (rest : List URL) (st : crawlState) : crawlState :=
  match site u with
  | pageResult.loadErr =>
    { queue := rest, visited := st.visited, obs := st.obs,
      processedPaths := st.processedPaths ++ [u.path] }
  | pageResult.stableErr =>
    { queue := rest, visited := st.visited, obs := st.obs,
      processedPaths := st.processedPaths ++ [u.path] }
  | pageResult.classQueryErr =>
    { queue := rest, visited := st.visited, obs := st.obs,
      processedPaths := st.processedPaths ++ [u.path] }
  | pageResult.linkQueryErr _ =>
    { queue := rest, visited := st.visited, obs := st.obs,
      processedPaths := st.processedPaths ++ [u.path] }
  | pageResult.ok p =>
    let pageClasses := extractClassesPage p.classElements
    let links := findLinks f parse p.linkElements st.visited
    { queue := rest ++ links.1, visited := links.2,
      obs := st.obs ++ pageClasses,
      processedPaths := st.processedPaths ++ [u.path] }

/-- The sequential replay of the worker loop: `fuel` bounds how many queue
items the worker may take before the external cancellation signal stops it
(`<-ctx.Done()`); an empty queue is the 10-second idle-timeout exit. -/
def findUsedLoop (f : Finder) (site : URL → pageResult) (parse : String → Option URL) :
    Nat → crawlState → crawlState
  | 0, st => st
  | Nat.succ fuel, st =>
    match st.queue with
    | [] => st
    | u :: rest => findUsedLoop f site parse fuel (processPage f site parse u rest st)

/-- The initial crawl state: the root URL is enqueued directly
(`go enqueue(f.rootURL)`) — note that its path is never added to the
visited set. -/
def initState (f : Finder) : crawlState :=
  { queue := [f.rootURL], visited := ⟨[]⟩, obs := [], processedPaths := [] }

/-- `Finder.findUsed`, sequential replay: run the worker loop, then return
the aggregated table.  The function's only return statement is
`return out, nil` — the error component is always nil, also when the crawl
was stopped by cancellation with the frontier still non-empty. -/
def findUsed (f : Finder) (site : URL → pageResult) (parse : String → Option URL)
    (fuel : Nat) : Except String (List usedClass) :=
  Except.ok (aggregateObs (findUsedLoop f site parse fuel (initState f)).obs)

/-- `Finder.FindUnused`: run `findUsed` and apply the resolution filter to
whatever table it returns. -/
def FindUnused (f : Finder) (site : URL → pageResult) (parse : String → Option URL)
    (fuel : Nat) (classes : List String) : Except String (List String) :=
  match findUsed f site parse fuel with
  | Except.error err => Except.error ("find used classes: " ++ err)
  | Except.ok used => Except.ok (findUnusedResolve classes used)

/-! ## Claim C2 -/

/-- The site of the C2 scenario: the root page `/` carries one same-host
absolute link to `/a`; every other page is empty. -/
def siteC2 : URL → pageResult := fun u =>
  if u.path = "/" then
    pageResult.ok ⟨[], [⟨attrResult.ok (some "https://example.com/a")⟩]⟩
  else pageResult.ok ⟨[], []⟩

/-- The `url.Parse` oracle for the concrete scenarios: the one absolute
link URL used by the example sites. -/
def parseEx : String → Option URL := fun s =>
  if s = "https://example.com/a" then some ⟨"example.com", "/a"⟩ else none

/-- C2: the code at the failing input.  With `pageLimit = 1` and a root
page holding one same-host link, the sequential replay of the crawl
navigates to TWO distinct paths — the root and the linked page — because
the root path is never recorded in the visited set, so the first link
passes the budget check `count() >= pageLimit` with `count() = 0`.  This
contradicts the claimed bound (at most `pageLimit` distinct paths; only the
root when `pageLimit = 1`). -/
theorem pageLimit_one_visits_two_pages :
    (findUsedLoop ⟨⟨"example.com", "/"⟩, 1⟩ siteC2 parseEx 10
        (initState ⟨⟨"example.com", "/"⟩, 1⟩)).processedPaths = ["/", "/a"] ∧
    (["/", "/a"] : List String).Nodup ∧ ¬ ((["/", "/a"] : List String).length ≤ 1) := by
  refine ⟨by decide, by decide, by decide⟩

/-! ## Claim C7 -/

/-- The site of the C7 scenario: the root page `/` uses class `a` and links
to `/a`; page `/a` uses class `b`. -/
def siteC7 : URL → pageResult := fun u =>
  if u.path = "/" then
    pageResult.ok ⟨[⟨attrResult.ok (some "a")⟩],
      [⟨attrResult.ok (some "https://example.com/a")⟩]⟩
  else pageResult.ok ⟨[⟨attrResult.ok (some "b")⟩], []⟩

/-- C7 counterexample: cancellation after one page (fuel 1) leaves the
frontier non-empty — the crawl did not complete — yet `FindUnused` still
resolves against the partial table and returns a result with a nil error:
class `b`, which is used on the not-yet-visited page `/a`, is reported
unused.  The partial table is not discarded and the resolver IS invoked. -/
theorem cancelled_crawl_still_resolves :
    (findUsedLoop ⟨⟨"example.com", "/"⟩, 0⟩ siteC7 parseEx 1
        (initState ⟨⟨"example.com", "/"⟩, 0⟩)).queue ≠ [] ∧
    FindUnused ⟨⟨"example.com", "/"⟩, 0⟩ siteC7 parseEx 1 ["a", "b"] =
      Except.ok ["b"] := by
  refine ⟨by decide, by rfl⟩

/-- C7 amended: when cancellation stops the crawl early, the partially
aggregated usage table is NOT discarded — `findUsed` returns it with a nil
error, and `FindUnused` always invokes the resolver on it, producing a
best-effort result over whatever pages were processed before the cutoff
(the behaviour §7 of the spec describes). -/
theorem findUnused_best_effort_on_cancel (f : Finder) (site : URL → pageResult)
    (parse : String → Option URL) (fuel : Nat) (classes : List String) :
    FindUnused f site parse fuel classes =
      Except.ok (findUnusedResolve classes
        (aggregateObs (findUsedLoop f site parse fuel (initState f)).obs)) :=
  rfl

/-! ## Claim C8 -/

/-- Any of the four per-page failure outcomes of the renderer. -/
def pageFails (site : URL → pageResult) (u : URL) : Bool :=
  match site u with
  | pageResult.ok _ => false
  | _ => true

/-- C8: error containment.  (1) A page on which the renderer fails — load,
stability wait, or either DOM query — only consumes its queue entry and is
recorded as navigated: it contributes no observations, no links and no
visited-set changes, and the worker loop continues with the rest of the
queue.  (2) The crawl loop itself never produces an error: `FindUnused`
returns `Except.ok` for every site, so the only error return of the
operation is the fatal setup failure, and `New` fails exactly when the root
URL is unparsable.  (3) A single element whose attribute read fails is
skipped: class extraction and link discovery are unchanged by such an
element. -/
theorem page_errors_contained (f : Finder) (site : URL → pageResult)
    (parse : String → Option URL) (u : URL) (q : List URL) (v : visitedPages)
    (obs : List usedClass) (proc : List String) (fuel : Nat)
    (h : pageFails site u = true) :
    findUsedLoop f site parse (fuel + 1) ⟨u :: q, v, obs, proc⟩ =
      findUsedLoop f site parse fuel ⟨q, v, obs, proc ++ [u.path]⟩ ∧
    (∀ classes, ∃ r, FindUnused f site parse fuel classes = Except.ok r) ∧
    (∀ raw limit, (∃ e, New parse raw limit = Except.error e) ↔ parse raw = none) ∧
    (∀ els, extractClassesPage ({ classAttr := attrResult.err } :: els) =
      extractClassesPage els) ∧
    (∀ links visited,
      findLinks f parse ({ hrefAttr := attrResult.err } :: links) visited =
        findLinks f parse links visited) := by
  refine ⟨?_, ?_, ?_, fun _ => rfl, fun _ _ => rfl⟩
  · show findUsedLoop f site parse fuel
        (processPage f site parse u q ⟨u :: q, v, obs, proc⟩) = _
    congr 1
    unfold pageFails at h
    unfold processPage
    cases hs : site u with
    | ok p =>
      rw [hs] at h
      exact absurd h Bool.false_ne_true
    | loadErr => rfl
    | stableErr => rfl
    | classQueryErr => rfl
    | linkQueryErr p => rfl
  · intro classes
    exact ⟨findUnusedResolve classes
      (aggregateObs (findUsedLoop f site parse fuel (initState f)).obs), rfl⟩
  · intro raw limit
    cases hp : parse raw with
    | none =>
      refine ⟨fun _ => rfl, fun _ => ?_⟩
      exact ⟨"parse root URL", by unfold New; rw [hp]⟩
    | some r =>
      refine ⟨fun ⟨e, he⟩ => ?_, fun hn => ?_⟩
      · unfold New at he
        rw [hp] at he
        exact absurd he (by simp)
      · exact absurd hn (by simp)

/-- The always-failing site of the C8 witness. -/
def siteFail : URL → pageResult := fun _ => pageResult.loadErr

/-- Witness for C8 at a concrete failing page: the root page fails to load;
the worker consumes it, records the navigation, and continues with an empty
queue, contributing nothing. -/
theorem page_errors_contained_witness :
    pageFails siteFail ⟨"example.com", "/"⟩ = true ∧
    findUsedLoop ⟨⟨"example.com", "/"⟩, 0⟩ siteFail parseEx 1
        ⟨[⟨"example.com", "/"⟩], ⟨[]⟩, [], []⟩ =
      findUsedLoop ⟨⟨"example.com", "/"⟩, 0⟩ siteFail parseEx 0
        ⟨[], ⟨[]⟩, [], ["/"]⟩ := by
  refine ⟨by decide, ?_⟩
  exact (page_errors_contained ⟨⟨"example.com", "/"⟩, 0⟩ siteFail parseEx
    ⟨"example.com", "/"⟩ [] ⟨[]⟩ [] [] 0 (by decide)).1

end Siteperf
